import Mathlib

/-!
Verification of the federation bot's core algorithms, as a shallow embedding
of `src/federationbot/__init__.py` into Lean.

Conventions used throughout this file:
* Python dictionaries keyed by strings are modelled as functions
  `String → Option v` (`none` means the key is absent).
* Python float arithmetic in the backwalk fetcher only multiplies a measured
  elapsed time by the literal `0.5` and compares against the literal `1.0`;
  both literals and the halving are exact in binary floating point, so the
  arithmetic is modelled exactly over `ℚ`.
* `asyncio.Queue` is modelled as a FIFO list: `get` takes the head,
  `put_nowait` appends at the tail.
-/

/-! ## Host ordering (`get_hosts_in_room_ordered`) -/

/-- Model of the fields of `RoomMemberStateEvent` (from `federationbot/events.py`,
outside `src/`) that `get_hosts_in_room_ordered` reads: the event `type`,
the `state_key` (the member's user id), the `membership` value and the
integer `depth`. -/
structure RoomMemberStateEvent where
  type : String
  state_key : String
  membership : String
  depth : Nat
deriving DecidableEq, Repr

/-- Characters after the first `':'`, helper for `get_domain_from_id`. -/
def charsAfterColon : List Char → List Char
  | [] => []
  | c :: cs => if c = ':' then cs else charsAfterColon cs

/-- Modelled from the spec: `get_domain_from_id` is imported from
`federationbot/utils.py`, which is not under `src/`.  The spec calls its
result "the host portion of the event's subject identifier", i.e. everything
after the first colon of an identifier such as `@user:example.org`. -/
def get_domain_from_id (mxid : String) : String :=
  String.mk (charsAfterColon mxid.toList)

/-- Modelled from the spec: `filter_events_based_on_type` is imported from
`federationbot/federation.py`, which is not under `src/`.  Per its name and
its use in `get_hosts_in_room_ordered` it keeps exactly the events whose
`type` field equals the given value. -/
def filter_events_based_on_type (events : List RoomMemberStateEvent)
    (t : String) : List RoomMemberStateEvent :=
  events.filter (fun e => e.type = t)

/-- Modelled from the spec: `filter_state_events_based_on_membership` is
imported from `federationbot/federation.py`, which is not under `src/`.
Per its name and use it keeps exactly the events whose `membership` field
equals the given value. -/
def filter_state_events_based_on_membership (events : List RoomMemberStateEvent)
    (m : String) : List RoomMemberStateEvent :=
  events.filter (fun e => e.membership = m)

/-- Stable insertion of an event into a list ascending by `depth`: the new
element goes before the first strictly deeper element and after equal depths
already present.  Helper for `sortByDepth`. -/
def insertByDepth (e : RoomMemberStateEvent) :
    List RoomMemberStateEvent → List RoomMemberStateEvent
  | [] => [e]
  | x :: xs => if e.depth ≤ x.depth then e :: x :: xs else x :: insertByDepth e xs

/-- Model of `joined_member_events.sort(key=lambda x: x.depth)`: Python's
`list.sort` is a stable ascending sort, modelled here as stable insertion
sort (equal depths keep their input order). -/
def sortByDepth : List RoomMemberStateEvent → List RoomMemberStateEvent
  | [] => []
  | e :: es => insertByDepth e (sortByDepth es)

/-- Model of the final loop of `get_hosts_in_room_ordered`:
`for member in joined_member_events: host = get_domain_from_id(member.state_key);
if host not in hosts_ordered: hosts_ordered.extend([host])`. -/
def collectHosts : List RoomMemberStateEvent → List String → List String
  | [], hosts_ordered => hosts_ordered
  | member :: rest, hosts_ordered =>
      let host := get_domain_from_id member.state_key
      if host ∈ hosts_ordered then collectHosts rest hosts_ordered
      else collectHosts rest (hosts_ordered ++ [host])

/-- The pure core of `get_hosts_in_room_ordered`
(`src/federationbot/__init__.py:2646`), starting from the state events the
federation requests produced: filter to `m.room.member` events, filter to
`membership = join`, stable-sort ascending by `depth`, then collect each
event's domain keeping only first occurrences. -/
def get_hosts_in_room_ordered (state_events : List RoomMemberStateEvent) :
    List String :=
  let filtered_room_member_events :=
    filter_events_based_on_type state_events "m.room.member"
  let joined_member_events :=
    filter_state_events_based_on_membership filtered_room_member_events "join"
  collectHosts (sortByDepth joined_member_events) []

/-- The join events among a list of state events: the events that survive the
two filters of `get_hosts_in_room_ordered`. -/
def joinEvents (state_events : List RoomMemberStateEvent) :
    List RoomMemberStateEvent :=
  filter_state_events_based_on_membership
    (filter_events_based_on_type state_events "m.room.member") "join"

/-- The depths of the events of host `h` in a list of events. -/
def hostDepths (h : String) (es : List RoomMemberStateEvent) : List Nat :=
  (es.filter (fun e => get_domain_from_id e.state_key = h)).map
    (fun e => e.depth)

/-- Minimum of a list of naturals, `none` on the empty list. -/
def minDepthList : List Nat → Option Nat
  | [] => none
  | d :: ds =>
      some (match minDepthList ds with
            | none => d
            | some m => if d ≤ m then d else m)

/-- The minimum depth over all join events of host `h` in the given state
events (`none` when `h` has no join event). -/
def minJoinDepth (state_events : List RoomMemberStateEvent) (h : String) :
    Option Nat :=
  minDepthList (hostDepths h (joinEvents state_events))

/-- The host a membership event contributes: the domain of its `state_key`. -/
def hostOf (e : RoomMemberStateEvent) : String :=
  get_domain_from_id e.state_key

/-- First-occurrence filter with an explicit seen set: keeps each event whose
host was not seen before, in order.  `collectHosts l acc` appends exactly the
hosts of `uniqFAux l acc` to `acc` (proved below), which lets the dedup loop
of `get_hosts_in_room_ordered` be analysed structurally. -/
def uniqFAux : List RoomMemberStateEvent → List String → List RoomMemberStateEvent
  | [], _ => []
  | e :: es, seen =>
      if hostOf e ∈ seen then uniqFAux es seen
      else e :: uniqFAux es (hostOf e :: seen)

theorem uniqFAux_congr (l : List RoomMemberStateEvent) :
    ∀ s₁ s₂ : List String, (∀ x, x ∈ s₁ ↔ x ∈ s₂) →
      uniqFAux l s₁ = uniqFAux l s₂ := by
  induction l with
  | nil => intro s₁ s₂ _; rfl
  | cons e es ih =>
      intro s₁ s₂ hs
      by_cases h : hostOf e ∈ s₁
      · rw [uniqFAux, if_pos h, uniqFAux, if_pos ((hs _).mp h), ih s₁ s₂ hs]
      · rw [uniqFAux, if_neg h, uniqFAux, if_neg (fun hc => h ((hs _).mpr hc))]
        rw [ih (hostOf e :: s₁) (hostOf e :: s₂)]
        intro x
        simp only [List.mem_cons, hs x]

theorem collectHosts_eq (l : List RoomMemberStateEvent) :
    ∀ acc : List String, collectHosts l acc = acc ++ (uniqFAux l acc).map hostOf := by
  induction l with
  | nil => intro acc; simp [collectHosts, uniqFAux]
  | cons e es ih =>
      intro acc
      by_cases h : get_domain_from_id e.state_key ∈ acc
      · rw [collectHosts]
        simp only [h, if_true]
        rw [uniqFAux, if_pos (show hostOf e ∈ acc from h), ih acc]
      · rw [collectHosts]
        simp only [h, if_false]
        rw [uniqFAux, if_neg (show hostOf e ∉ acc from h), ih (acc ++ [get_domain_from_id e.state_key])]
        rw [uniqFAux_congr es (acc ++ [get_domain_from_id e.state_key]) (hostOf e :: acc)]
        · simp [hostOf]
        · intro x
          simp only [List.mem_append, List.mem_singleton, List.mem_cons, hostOf]
          tauto

theorem uniqFAux_sublist (l : List RoomMemberStateEvent) :
    ∀ seen : List String, List.Sublist (uniqFAux l seen) l := by
  induction l with
  | nil => intro seen; simp [uniqFAux]
  | cons e es ih =>
      intro seen
      by_cases h : hostOf e ∈ seen
      · rw [uniqFAux, if_pos h]
        exact (ih seen).cons e
      · rw [uniqFAux, if_neg h]
        exact (ih (hostOf e :: seen)).cons₂ e

theorem uniqFAux_host_not_seen (l : List RoomMemberStateEvent) :
    ∀ seen : List String, ∀ e' ∈ uniqFAux l seen, hostOf e' ∉ seen := by
  induction l with
  | nil => intro seen e' h; simp [uniqFAux] at h
  | cons e es ih =>
      intro seen e' h'
      by_cases h : hostOf e ∈ seen
      · rw [uniqFAux, if_pos h] at h'
        exact ih seen e' h'
      · rw [uniqFAux, if_neg h] at h'
        rcases List.mem_cons.mp h' with rfl | hmem
        · exact h
        · have := ih (hostOf e :: seen) e' hmem
          exact fun hc => this (List.mem_cons_of_mem _ hc)

theorem uniqFAux_map_nodup (l : List RoomMemberStateEvent) :
    ∀ seen : List String, ((uniqFAux l seen).map hostOf).Nodup := by
  induction l with
  | nil => intro seen; simp [uniqFAux]
  | cons e es ih =>
      intro seen
      by_cases h : hostOf e ∈ seen
      · rw [uniqFAux, if_pos h]; exact ih seen
      · rw [uniqFAux, if_neg h]
        rw [List.map_cons, List.nodup_cons]
        refine ⟨?_, ih (hostOf e :: seen)⟩
        intro hc
        rcases List.mem_map.mp hc with ⟨e', he', heq⟩
        have := uniqFAux_host_not_seen es (hostOf e :: seen) e' he'
        exact this (heq ▸ List.mem_cons_self _ _)

theorem uniqFAux_mem_map (l : List RoomMemberStateEvent) :
    ∀ seen : List String, ∀ h : String,
      h ∈ (uniqFAux l seen).map hostOf ↔
        h ∉ seen ∧ ∃ e ∈ l, hostOf e = h := by
  induction l with
  | nil => intro seen h; simp [uniqFAux]
  | cons e es ih =>
      intro seen h
      by_cases hs : hostOf e ∈ seen
      · rw [uniqFAux, if_pos hs, ih seen h]
        constructor
        · rintro ⟨hns, e', he', rfl⟩
          exact ⟨hns, e', List.mem_cons_of_mem _ he', rfl⟩
        · rintro ⟨hns, e', he', rfl⟩
          rcases List.mem_cons.mp he' with rfl | he''
          · exact absurd hs hns
          · exact ⟨hns, e', he'', rfl⟩
      · rw [uniqFAux, if_neg hs, List.map_cons]
        constructor
        · intro hmem
          rcases List.mem_cons.mp hmem with rfl | hmem'
          · exact ⟨hs, e, List.mem_cons_self _ _, rfl⟩
          · rcases (ih (hostOf e :: seen) h).mp hmem' with ⟨hns, e', he', rfl⟩
            exact ⟨fun hc => hns (List.mem_cons_of_mem _ hc), e',
              List.mem_cons_of_mem _ he', rfl⟩
        · rintro ⟨hns, e', he', rfl⟩
          rcases List.mem_cons.mp he' with rfl | he''
          · exact List.mem_cons_self _ _
          · by_cases heq : hostOf e' = hostOf e
            · exact heq ▸ List.mem_cons_self _ _
            · refine List.mem_cons_of_mem _ ((ih (hostOf e :: seen) _).mpr ?_)
              exact ⟨by simp [heq, hns], e', he'', rfl⟩

theorem insertByDepth_perm (e : RoomMemberStateEvent)
    (l : List RoomMemberStateEvent) : List.Perm (insertByDepth e l) (e :: l) := by
  induction l with
  | nil => simp [insertByDepth]
  | cons x xs ih =>
      by_cases h : e.depth ≤ x.depth
      · simp [insertByDepth, h]
      · rw [insertByDepth, if_neg h]
        exact (ih.cons x).trans (List.Perm.swap e x xs)

theorem sortByDepth_perm (l : List RoomMemberStateEvent) : List.Perm (sortByDepth l) l := by
  induction l with
  | nil => simp [sortByDepth]
  | cons e es ih =>
      exact (insertByDepth_perm e (sortByDepth es)).trans (ih.cons e)

theorem insertByDepth_pairwise {e : RoomMemberStateEvent}
    {l : List RoomMemberStateEvent}
    (h : l.Pairwise (fun a b => a.depth ≤ b.depth)) :
    (insertByDepth e l).Pairwise (fun a b => a.depth ≤ b.depth) := by
  induction l with
  | nil => simp [insertByDepth]
  | cons x xs ih =>
      rcases List.pairwise_cons.mp h with ⟨hx, hxs⟩
      by_cases hle : e.depth ≤ x.depth
      · rw [insertByDepth, if_pos hle]
        refine List.Pairwise.cons ?_ h
        intro y hy
        rcases List.mem_cons.mp hy with rfl | hy'
        · exact hle
        · exact le_trans hle (hx y hy')
      · rw [insertByDepth, if_neg hle]
        refine List.Pairwise.cons ?_ (ih hxs)
        intro y hy
        have hy' : y ∈ e :: xs := (insertByDepth_perm e xs).subset hy
        rcases List.mem_cons.mp hy' with rfl | hy''
        · exact le_of_lt (Nat.lt_of_not_le hle)
        · exact hx y hy''

theorem sortByDepth_pairwise (l : List RoomMemberStateEvent) :
    (sortByDepth l).Pairwise (fun a b => a.depth ≤ b.depth) := by
  induction l with
  | nil => simp [sortByDepth]
  | cons e es ih => exact insertByDepth_pairwise ih

theorem uniqFAux_first_min {l : List RoomMemberStateEvent}
    (hsort : l.Pairwise (fun a b => a.depth ≤ b.depth)) :
    ∀ seen : List String, ∀ e' ∈ uniqFAux l seen,
      e' ∈ l ∧ ∀ x ∈ l, hostOf x = hostOf e' → e'.depth ≤ x.depth := by
  induction l with
  | nil => intro seen e' h; simp [uniqFAux] at h
  | cons e es ih =>
      rcases List.pairwise_cons.mp hsort with ⟨hhead, htail⟩
      intro seen e' h'
      by_cases h : hostOf e ∈ seen
      · rw [uniqFAux, if_pos h] at h'
        rcases ih htail seen e' h' with ⟨hmem, hmin⟩
        have hne : hostOf e ≠ hostOf e' := by
          intro hc
          exact uniqFAux_host_not_seen es seen e' h' (hc ▸ h)
        refine ⟨List.mem_cons_of_mem _ hmem, ?_⟩
        intro x hx hhx
        rcases List.mem_cons.mp hx with rfl | hx'
        · exact absurd hhx hne
        · exact hmin x hx' hhx
      · rw [uniqFAux, if_neg h] at h'
        rcases List.mem_cons.mp h' with rfl | hmem
        · refine ⟨List.mem_cons_self _ _, ?_⟩
          intro x hx _
          rcases List.mem_cons.mp hx with rfl | hx'
          · exact le_refl _
          · exact hhead x hx'
        · rcases ih htail (hostOf e :: seen) e' hmem with ⟨hmem', hmin⟩
          have hne : hostOf e ≠ hostOf e' := by
            intro hc
            exact uniqFAux_host_not_seen es (hostOf e :: seen) e' hmem
              (hc ▸ List.mem_cons_self _ _)
          refine ⟨List.mem_cons_of_mem _ hmem', ?_⟩
          intro x hx hhx
          rcases List.mem_cons.mp hx with rfl | hx'
          · exact absurd hhx hne
          · exact hmin x hx' hhx

theorem minDepthList_eq_none_iff (ds : List Nat) :
    minDepthList ds = none ↔ ds = [] := by
  cases ds <;> simp [minDepthList]

theorem minDepthList_spec (ds : List Nat) (m : Nat)
    (h : minDepthList ds = some m) : m ∈ ds ∧ ∀ d ∈ ds, m ≤ d := by
  induction ds generalizing m with
  | nil => simp [minDepthList] at h
  | cons d ds ih =>
      rw [minDepthList] at h
      cases hrec : minDepthList ds with
      | none =>
          have hnil : ds = [] := (minDepthList_eq_none_iff ds).mp hrec
          rw [hrec] at h
          simp only [Option.some.injEq] at h
          subst hnil
          simp [← h]
      | some m' =>
          rw [hrec] at h
          simp only [Option.some.injEq] at h
          rcases ih m' hrec with ⟨hmem, hlb⟩
          by_cases hdm : d ≤ m'
          · rw [if_pos hdm] at h
            subst h
            refine ⟨List.mem_cons_self _ _, ?_⟩
            intro x hx
            rcases List.mem_cons.mp hx with rfl | hx'
            · exact Nat.le_refl _
            · exact le_trans hdm (hlb x hx')
          · rw [if_neg hdm] at h
            subst h
            refine ⟨List.mem_cons_of_mem _ hmem, ?_⟩
            intro x hx
            rcases List.mem_cons.mp hx with rfl | hx'
            · exact le_of_lt (Nat.lt_of_not_le hdm)
            · exact hlb x hx'

theorem minDepthList_eq_some_of (ds : List Nat) (m : Nat)
    (hm : m ∈ ds) (hlb : ∀ d ∈ ds, m ≤ d) : minDepthList ds = some m := by
  cases h : minDepthList ds with
  | none =>
      rw [(minDepthList_eq_none_iff ds).mp h] at hm
      simp at hm
  | some m₀ =>
      rcases minDepthList_spec ds m₀ h with ⟨hmem, hlb₀⟩
      have : m₀ = m := Nat.le_antisymm (hlb₀ m hm) (hlb m₀ hmem)
      rw [this]

theorem minDepthList_perm (ds₁ ds₂ : List Nat) (hp : List.Perm ds₁ ds₂) :
    minDepthList ds₁ = minDepthList ds₂ := by
  cases h : minDepthList ds₁ with
  | none =>
      have : ds₁ = [] := (minDepthList_eq_none_iff ds₁).mp h
      subst this
      rw [(minDepthList_eq_none_iff ds₂).mpr hp.symm.eq_nil]
  | some m =>
      rcases minDepthList_spec ds₁ m h with ⟨hmem, hlb⟩
      exact (minDepthList_eq_some_of ds₂ m (hp.mem_iff.mp hmem)
        (fun d hd => hlb d (hp.mem_iff.mpr hd))).symm

theorem hostDepths_perm (h : String) {l₁ l₂ : List RoomMemberStateEvent}
    (hp : List.Perm l₁ l₂) : List.Perm (hostDepths h l₁) (hostDepths h l₂) :=
  (hp.filter _).map _

theorem mem_hostDepths {h : String} {l : List RoomMemberStateEvent} {d : Nat} :
    d ∈ hostDepths h l ↔ ∃ e ∈ l, hostOf e = h ∧ e.depth = d := by
  simp only [hostDepths, List.mem_map, List.mem_filter, decide_eq_true_eq, hostOf]
  constructor
  · rintro ⟨e, ⟨he, hh⟩, hd⟩
    exact ⟨e, he, hh, hd⟩
  · rintro ⟨e, he, hh, hd⟩
    exact ⟨e, ⟨he, hh⟩, hd⟩

theorem minDepth_at_uniq {L : List RoomMemberStateEvent}
    (hsorted : L.Pairwise (fun a b => a.depth ≤ b.depth))
    {e' : RoomMemberStateEvent} (he' : e' ∈ uniqFAux L []) :
    minDepthList (hostDepths (hostOf e') L) = some e'.depth := by
  rcases uniqFAux_first_min hsorted [] e' he' with ⟨hmem, hmin⟩
  apply minDepthList_eq_some_of
  · exact mem_hostDepths.mpr ⟨e', hmem, rfl, rfl⟩
  · intro d hd
    rcases mem_hostDepths.mp hd with ⟨x, hx, hhx, rfl⟩
    exact hmin x hx hhx

theorem get_hosts_in_room_ordered_eq (state_events : List RoomMemberStateEvent) :
    get_hosts_in_room_ordered state_events =
      (uniqFAux (sortByDepth (joinEvents state_events)) []).map hostOf := by
  show collectHosts (sortByDepth (joinEvents state_events)) [] = _
  rw [collectHosts_eq]
  simp

/-- C3: for every list of membership events, `get_hosts_in_room_ordered`
yields a deduplicated list (each host exactly once), containing exactly the
hosts having at least one `m.room.member`/`join` event, ordered ascending by
each host's minimum join-event depth (so a host with join events at depths 5
and 9 appears once, positioned by depth 5). -/
theorem hosts_ordered_by_min_join_depth (state_events : List RoomMemberStateEvent) :
    (get_hosts_in_room_ordered state_events).Nodup ∧
    (∀ h, h ∈ get_hosts_in_room_ordered state_events ↔
      ∃ e ∈ joinEvents state_events, hostOf e = h) ∧
    (get_hosts_in_room_ordered state_events).Pairwise
      (fun h₁ h₂ =>
        (minJoinDepth state_events h₁).getD 0 ≤
          (minJoinDepth state_events h₂).getD 0) := by
  have hL : List.Perm (sortByDepth (joinEvents state_events))
      (joinEvents state_events) := sortByDepth_perm _
  have hs := sortByDepth_pairwise (joinEvents state_events)
  have heq := get_hosts_in_room_ordered_eq state_events
  refine ⟨?_, ?_, ?_⟩
  · rw [heq]; exact uniqFAux_map_nodup _ []
  · intro h
    rw [heq, uniqFAux_mem_map]
    constructor
    · rintro ⟨-, e, he, rfl⟩
      exact ⟨e, hL.subset he, rfl⟩
    · rintro ⟨e, he, rfl⟩
      exact ⟨List.not_mem_nil _, e, hL.mem_iff.mpr he, rfl⟩
  · rw [heq, List.pairwise_map]
    have hpw : (uniqFAux (sortByDepth (joinEvents state_events)) []).Pairwise
        (fun a b => a.depth ≤ b.depth) :=
      hs.sublist (uniqFAux_sublist _ [])
    refine List.Pairwise.imp_of_mem ?_ hpw
    intro a b ha hb hab
    have hma : minJoinDepth state_events (hostOf a) = some a.depth := by
      rw [minJoinDepth, minDepthList_perm _ _ (hostDepths_perm _ hL.symm)]
      exact minDepth_at_uniq hs ha
    have hmb : minJoinDepth state_events (hostOf b) = some b.depth := by
      rw [minJoinDepth, minDepthList_perm _ _ (hostDepths_perm _ hL.symm)]
      exact minDepth_at_uniq hs hb
    rw [hma, hmb]
    exact hab

/-- Two join events at the same depth whose hosts are in reverse lexical
order, for exercising the tie-breaking behaviour of the host ordering. -/
def tieEventFirst : RoomMemberStateEvent :=
  ⟨"m.room.member", "@user:bbb.example.org", "join", 5⟩

/-- The partner of `tieEventFirst`: same depth, lexically smaller host. -/
def tieEventSecond : RoomMemberStateEvent :=
  ⟨"m.room.member", "@user:aaa.example.org", "join", 5⟩

/-- C4 counterexample: two distinct hosts sharing the same minimum join
depth are NOT ordered lexically, and permuting the input changes the output,
so the ordering is not determined by the multiset of (host, depth) pairs:
the two-element input lists below are permutations of each other, yet they
produce different host orders, and the first output is in reverse lexical
order. -/
theorem host_tie_not_lexical :
    List.Perm [tieEventFirst, tieEventSecond] [tieEventSecond, tieEventFirst] ∧
    get_hosts_in_room_ordered [tieEventFirst, tieEventSecond] =
      ["bbb.example.org", "aaa.example.org"] ∧
    get_hosts_in_room_ordered [tieEventSecond, tieEventFirst] =
      ["aaa.example.org", "bbb.example.org"] ∧
    get_hosts_in_room_ordered [tieEventFirst, tieEventSecond] ≠
      get_hosts_in_room_ordered [tieEventSecond, tieEventFirst] :=
  ⟨List.Perm.swap tieEventSecond tieEventFirst [], by decide, by decide, by decide⟩

/-- C4 amended: when two distinct hosts share the same minimum join depth,
the stable sort leaves their events in input order, so the host of the
earlier input event comes first (no lexical tie-break). -/
theorem host_tie_follows_input_order (e₁ e₂ : RoomMemberStateEvent)
    (ht₁ : e₁.type = "m.room.member") (ht₂ : e₂.type = "m.room.member")
    (hm₁ : e₁.membership = "join") (hm₂ : e₂.membership = "join")
    (hd : e₁.depth = e₂.depth)
    (hne : hostOf e₁ ≠ hostOf e₂) :
    get_hosts_in_room_ordered [e₁, e₂] = [hostOf e₁, hostOf e₂] := by
  rw [get_hosts_in_room_ordered_eq]
  have hj : joinEvents [e₁, e₂] = [e₁, e₂] := by
    simp [joinEvents, filter_events_based_on_type,
      filter_state_events_based_on_membership, ht₁, ht₂, hm₁, hm₂]
  rw [hj]
  have hsort : sortByDepth [e₁, e₂] = [e₁, e₂] := by
    simp [sortByDepth, insertByDepth, hd]
  rw [hsort]
  rw [uniqFAux, if_neg (List.not_mem_nil _), uniqFAux]
  rw [if_neg ?hmem]
  case hmem =>
    intro hc
    rcases List.mem_cons.mp hc with hc' | hc'
    · exact hne hc'.symm
    · exact absurd hc' (List.not_mem_nil _)
  rw [uniqFAux]
  simp

/-- Witness for `host_tie_follows_input_order` at the concrete tie events. -/
theorem host_tie_follows_input_order_witness :
    get_hosts_in_room_ordered [tieEventFirst, tieEventSecond] =
      [hostOf tieEventFirst, hostOf tieEventSecond] :=
  host_tie_follows_input_order tieEventFirst tieEventSecond rfl rfl rfl rfl rfl
    (by decide)

/-! ## Reaction control (`react_control_handler`, `ReactionCommandStatus`) -/

/-- Model of the `ReactionCommandStatus` enum
(`src/federationbot/__init__.py:155`). -/
inductive ReactionCommandStatus where
  | START
  | PAUSE
  | STOP
deriving DecidableEq, Repr

/-- The string value of each reaction command.  The source deliberately
includes a trailing space in each value. -/
def ReactionCommandStatus.value : ReactionCommandStatus → String
  | .START => "Start "
  | .PAUSE => "Pause "
  | .STOP => "Stop "

/-- Assignment `task_control[event_id] = v` on the function model of the
dictionary. -/
def setAt (task_control : String → Option ReactionCommandStatus)
    (event_id : String) (v : ReactionCommandStatus) :
    String → Option ReactionCommandStatus :=
  fun e => if e = event_id then some v else task_control e

/-- Model of `react_control_handler` (`src/federationbot/__init__.py:192`):
when the reaction comes from someone other than the bot and relates to an
event id already present in `task_control`, the recognized reaction key
("Stop ", "Pause " or "Start ", checked in that order) overwrites the entry
at that event id; in every other case the map is left as it is. -/
def react_control_handler (client_mxid sender relates_event_id reaction_key : String)
    (task_control : String → Option ReactionCommandStatus) :
    String → Option ReactionCommandStatus :=
  if sender ≠ client_mxid ∧ (task_control relates_event_id).isSome then
    if reaction_key = ReactionCommandStatus.STOP.value then
      setAt task_control relates_event_id ReactionCommandStatus.STOP
    else if reaction_key = ReactionCommandStatus.PAUSE.value then
      setAt task_control relates_event_id ReactionCommandStatus.PAUSE
    else if reaction_key = ReactionCommandStatus.START.value then
      setAt task_control relates_event_id ReactionCommandStatus.START
    else task_control
  else task_control

theorem react_control_handler_cases (client_mxid sender relates_event_id
    reaction_key : String) (task_control : String → Option ReactionCommandStatus) :
    react_control_handler client_mxid sender relates_event_id reaction_key
        task_control = task_control ∨
      ∃ v, (task_control relates_event_id).isSome = true ∧
        react_control_handler client_mxid sender relates_event_id reaction_key
          task_control = setAt task_control relates_event_id v := by
  rw [react_control_handler]
  split_ifs with h₀ h₁ h₂ h₃
  · exact Or.inr ⟨ReactionCommandStatus.STOP, h₀.2, rfl⟩
  · exact Or.inr ⟨ReactionCommandStatus.PAUSE, h₀.2, rfl⟩
  · exact Or.inr ⟨ReactionCommandStatus.START, h₀.2, rfl⟩
  · exact Or.inl rfl
  · exact Or.inl rfl

/-- C10: the reaction handler mutates `task_control` only at keys already
present: if the related event id is absent, or the sender is the bot, or the
key is none of the three command strings, the map is unchanged; in every
case no key is added or removed and keys other than the related event id are
untouched. -/
theorem react_control_handler_frame (client_mxid sender relates_event_id
    reaction_key : String) (task_control : String → Option ReactionCommandStatus) :
    ((task_control relates_event_id = none ∨ sender = client_mxid ∨
        (reaction_key ≠ "Start " ∧ reaction_key ≠ "Pause " ∧
          reaction_key ≠ "Stop ")) →
      react_control_handler client_mxid sender relates_event_id reaction_key
        task_control = task_control) ∧
    (∀ e, (react_control_handler client_mxid sender relates_event_id reaction_key
        task_control e).isSome = (task_control e).isSome) ∧
    (∀ e, e ≠ relates_event_id →
      react_control_handler client_mxid sender relates_event_id reaction_key
        task_control e = task_control e) := by
  refine ⟨?_, ?_, ?_⟩
  · intro hcase
    rw [react_control_handler]
    by_cases houter : sender ≠ client_mxid ∧ (task_control relates_event_id).isSome
    · rcases hcase with hnone | hbot | hkeys
      · rw [hnone] at houter
        simp at houter
      · exact absurd hbot houter.1
      · rw [if_pos houter, if_neg, if_neg, if_neg]
        · exact fun hc => hkeys.1 hc
        · exact fun hc => hkeys.2.1 hc
        · exact fun hc => hkeys.2.2 hc
    · rw [if_neg houter]
  · intro e
    rcases react_control_handler_cases client_mxid sender relates_event_id
        reaction_key task_control with heq | ⟨v, hsome, heq⟩
    · rw [heq]
    · rw [heq, setAt]
      by_cases he : e = relates_event_id
      · subst he
        simp [hsome]
      · simp [he]
  · intro e hne
    rcases react_control_handler_cases client_mxid sender relates_event_id
        reaction_key task_control with heq | ⟨v, _, heq⟩
    · rw [heq]
    · rw [heq, setAt]
      simp [hne]

/-- Witness for `react_control_handler_frame` at concrete values: an
unrecognized reaction key ("Stop" without the trailing space) leaves a
one-entry map unchanged. -/
theorem react_control_handler_frame_witness :
    react_control_handler "@bot:example.org" "@user:example.org" "$evt" "Stop"
        (fun e => if e = "$evt" then some ReactionCommandStatus.START else none) =
      (fun e => if e = "$evt" then some ReactionCommandStatus.START else none) :=
  (react_control_handler_frame "@bot:example.org" "@user:example.org" "$evt" "Stop"
      (fun e => if e = "$evt" then some ReactionCommandStatus.START else none)).1
    (Or.inr (Or.inr (by refine ⟨?_, ?_, ?_⟩ <;> decide)))

/-! ## Backwalk fetcher (`_inner_walking_fetcher`) and walk phases
(`room_walk_command`) -/

/-- Model of the fields of a `PaginatedMessages` response that
`room_walk_command` and `_inner_walking_fetcher` read: the event ids of the
page and the continuation token `end` (`none` or the empty string both count
as "no continuation" for the truthiness test `getattr(response, "end")`). -/
structure PaginatedResponse where
  events : List String
  endToken : Option String
deriving DecidableEq, Repr

/-- Python truthiness of `getattr(response, "end")`: `None` and the empty
string are falsy, any other string is truthy. -/
def truthyEnd : Option String → Bool
  | none => false
  | some s => !(s == "")

/-- Outcome of one `self.client.get_messages` call inside
`_inner_walking_fetcher`: either a measured page fetch, or a
`MatrixRequestError` raised by the transport. -/
inductive FetchOutcome where
  | success (elapsed : ℚ) (response : PaginatedResponse)
  | requestError
deriving DecidableEq, Repr

/-- The loop state of `_inner_walking_fetcher`
(`src/federationbot/__init__.py:364`): the `retry_token` flag, the most
recently dequeued `back_off_time` and `next_token`, the shared queue of
`(backoff, token)` pairs, and the shared `response_list` the parent loop
drains.  Elapsed times and backoffs are modelled over `ℚ` (exact for the
halving and the `> 1.0` comparison the code performs). -/
structure FetcherState where
  retry_token : Bool
  back_off_time : ℚ
  next_token : Option String
  queue : List (ℚ × Option String)
  response_list : List (ℚ × PaginatedResponse)
deriving DecidableEq, Repr

/-- The dequeue decision at the top of the `_inner_walking_fetcher` loop:
when `retry_token` is set the previous `(back_off_time, next_token)` pair is
reused and nothing is dequeued; otherwise the head of the queue is taken
(`none` models blocking forever on an empty queue).  Returns the pair in
effect, the remaining queue, and whether a dequeue happened. -/
def fetcher_dequeue (s : FetcherState) :
    Option (ℚ × Option String × List (ℚ × Option String) × Bool) :=
  if s.retry_token then some (s.back_off_time, s.next_token, s.queue, false)
  else
    match s.queue with
    | [] => none
    | (b, t) :: rest => some (b, t, rest, true)

/-- What one loop iteration of `_inner_walking_fetcher` observably did. -/
structure StepResult where
  state : FetcherState
  slept : Option ℚ
  fetched_token : Option String
  dequeued : Bool
deriving DecidableEq, Repr

/-- One iteration of the `while True` loop of `_inner_walking_fetcher`
(`src/federationbot/__init__.py:364`): dequeue unless retrying, sleep for
the backoff when it exceeds `1.0`, issue the fetch with the token in
effect; on `MatrixRequestError` set `retry_token` and keep the same
`back_off_time`/`next_token`; on success clear `retry_token`, append the
timed response to `response_list`, and, when the page has a truthy `end`
token, enqueue exactly `(elapsed * 0.5, end)`. -/
def fetcher_step (s : FetcherState) (outcome : FetchOutcome) : Option StepResult :=
  match fetcher_dequeue s with
  | none => none
  | some (b, t, rest, dqd) =>
      match outcome with
      | .requestError =>
          some ⟨⟨true, b, t, rest, s.response_list⟩,
                if b > 1 then some b else none, t, dqd⟩
      | .success elapsed resp =>
          some ⟨⟨false, b, t,
                 rest ++ (if truthyEnd resp.endToken then
                   [(elapsed * (1 / 2), resp.endToken)] else []),
                 s.response_list ++ [(elapsed, resp)]⟩,
                if b > 1 then some b else none, t, dqd⟩

/-- C5: in a fetch-loop iteration whose page fetch succeeds, exactly one new
queue item is enqueued when the page has a continuation token, and its
backoff component is the measured elapsed time times 0.5; no item is
enqueued when the page has no continuation token; and the producer sleeps
for the dequeued backoff exactly when it exceeds 1.0 seconds. -/
theorem fetcher_success_enqueue_spec (s : FetcherState)
    (b : ℚ) (t : Option String) (rest : List (ℚ × Option String)) (dqd : Bool)
    (elapsed : ℚ) (resp : PaginatedResponse)
    (hdq : fetcher_dequeue s = some (b, t, rest, dqd)) :
    ∃ r, fetcher_step s (.success elapsed resp) = some r ∧
      (truthyEnd resp.endToken = true →
        r.state.queue = rest ++ [(elapsed * (1 / 2), resp.endToken)]) ∧
      (truthyEnd resp.endToken = false → r.state.queue = rest) ∧
      r.slept = (if b > 1 then some b else none) := by
  have hstep : fetcher_step s (.success elapsed resp) =
      some ⟨⟨false, b, t,
             rest ++ (if truthyEnd resp.endToken then
               [(elapsed * (1 / 2), resp.endToken)] else []),
             s.response_list ++ [(elapsed, resp)]⟩,
            if b > 1 then some b else none, t, dqd⟩ := by
    rw [fetcher_step, hdq]
  refine ⟨_, hstep, ?_, ?_, rfl⟩
  · intro htok
    simp [htok]
  · intro htok
    simp [htok]

/-- Witness for `fetcher_success_enqueue_spec`: a concrete iteration that
dequeues backoff 2 (so it sleeps) and receives a page with continuation
token "next" after 3 seconds, enqueuing exactly `(1.5, "next")`. -/
theorem fetcher_success_enqueue_spec_witness :
    ∃ r, fetcher_step ⟨false, 0, none, [(2, some "prev")], []⟩
        (.success 3 ⟨["$e"], some "next"⟩) = some r ∧
      (truthyEnd (some "next") = true →
        r.state.queue = [] ++ [((3 : ℚ) * (1 / 2), some "next")]) ∧
      (truthyEnd (some "next") = false → r.state.queue = []) ∧
      r.slept = (if (2 : ℚ) > 1 then some 2 else none) :=
  fetcher_success_enqueue_spec ⟨false, 0, none, [(2, some "prev")], []⟩
    2 (some "prev") [] true 3 ⟨["$e"], some "next"⟩ (by decide)

/-- C6: when the page fetch fails with a transport error
(`MatrixRequestError`), the producer keeps the token it just used: the new
state has `retry_token` set and the same `next_token`, and its next
iteration, whatever its outcome, performs no dequeue and fetches that same
token again, preserving the already-enqueued continuation state. -/
theorem fetcher_error_retries_same_token (s : FetcherState) (r : StepResult)
    (h : fetcher_step s .requestError = some r) :
    r.state.retry_token = true ∧
    r.state.next_token = r.fetched_token ∧
    ∀ o : FetchOutcome, ∃ r' : StepResult,
      fetcher_step r.state o = some r' ∧ r'.dequeued = false ∧
      r'.fetched_token = r.fetched_token := by
  cases hdq : fetcher_dequeue s with
  | none =>
      rw [fetcher_step, hdq] at h
      exact absurd h (by simp)
  | some x =>
      obtain ⟨b, t, rest, dqd⟩ := x
      rw [fetcher_step, hdq] at h
      injection h with h
      subst h
      refine ⟨rfl, rfl, ?_⟩
      intro o
      cases o with
      | requestError =>
          exact ⟨⟨⟨true, b, t, rest, s.response_list⟩,
                  if b > 1 then some b else none, t, false⟩, rfl, rfl, rfl⟩
      | success elapsed resp =>
          exact ⟨⟨⟨false, b, t,
                   rest ++ (if truthyEnd resp.endToken then
                     [(elapsed * (1 / 2), resp.endToken)] else []),
                   s.response_list ++ [(elapsed, resp)]⟩,
                  if b > 1 then some b else none, t, false⟩, rfl, rfl, rfl⟩

/-- Witness for `fetcher_error_retries_same_token` at a concrete failing
iteration that had dequeued the token "tok". -/
theorem fetcher_error_retries_same_token_witness :
    (⟨⟨true, 0, some "tok", [], []⟩, none, some "tok", true⟩ :
        StepResult).state.retry_token = true ∧
    (⟨⟨true, 0, some "tok", [], []⟩, none, some "tok", true⟩ :
        StepResult).state.next_token =
      (⟨⟨true, 0, some "tok", [], []⟩, none, some "tok", true⟩ :
        StepResult).fetched_token ∧
    ∀ o : FetchOutcome, ∃ r' : StepResult,
      fetcher_step (⟨⟨true, 0, some "tok", [], []⟩, none, some "tok", true⟩ :
          StepResult).state o = some r' ∧ r'.dequeued = false ∧
      r'.fetched_token = (⟨⟨true, 0, some "tok", [], []⟩, none, some "tok",
          true⟩ : StepResult).fetched_token :=
  fetcher_error_retries_same_token ⟨false, 0, none, [(0, some "tok")], []⟩ _ rfl

/-- The state of the fetcher after `n` further consecutive transport
failures: each step is an iteration whose `get_messages` raises
`MatrixRequestError` (a blocked iteration, impossible once retrying, leaves
the state alone). -/
def failStreak (s : FetcherState) : Nat → FetcherState
  | 0 => s
  | n + 1 =>
      match fetcher_step (failStreak s n) .requestError with
      | some r => r.state
      | none => failStreak s n

/-- A retrying fetcher state is a fixed point of a failing iteration: the
loop dequeues nothing and ends the iteration in exactly the same state. -/
theorem fetcher_error_fixed (s : FetcherState) (h : s.retry_token = true) :
    fetcher_step s .requestError =
      some ⟨s, if s.back_off_time > 1 then some s.back_off_time else none,
            s.next_token, false⟩ := by
  obtain ⟨rt, b, t, q, rl⟩ := s
  cases rt
  · exact absurd h (by simp)
  · rfl

theorem failStreak_const (s : FetcherState) (h : s.retry_token = true) :
    ∀ n : Nat, failStreak s n = s := by
  intro n
  induction n with
  | zero => rfl
  | succ n ih => rw [failStreak, ih, fetcher_error_fixed s h]

/-- The fetcher state after the first transport failure of a walk that
dequeued the token "tok": retrying, with an empty queue. -/
def retryDemoState : FetcherState := ⟨true, 0, some "tok", [], []⟩

/-- C7 counterexample: the retry on transport failure is NOT bounded: there
is no finite limit after which the loop gives up the token — after any
number of consecutive transport failures the producer is still retrying the
very same pagination token (`retry_count` is initialized in the source but
never incremented or consulted). -/
theorem fetcher_retry_never_gives_up :
    ¬ ∃ N : Nat, ∀ n : Nat, N < n →
      ((failStreak retryDemoState n).retry_token = false ∨
        (failStreak retryDemoState n).next_token ≠ some "tok") := by
  rintro ⟨N, hN⟩
  have hmem := hN (N + 1) (Nat.lt_succ_self N)
  rw [failStreak_const retryDemoState rfl (N + 1)] at hmem
  rcases hmem with hfalse | hne
  · exact absurd hfalse (by decide)
  · exact hne rfl

/-- C7 amended: the retry is unbounded: a producer that is retrying keeps
retrying the same token forever under consecutive transport failures — after
any number of further failures its state (including `next_token`) is
unchanged and `retry_token` is still set. -/
theorem fetcher_retry_unbounded (s : FetcherState) (h : s.retry_token = true)
    (n : Nat) :
    (failStreak s n).retry_token = true ∧
    (failStreak s n).next_token = s.next_token := by
  rw [failStreak_const s h n]
  exact ⟨h, rfl⟩

/-- Witness for `fetcher_retry_unbounded` after five failures from the
concrete retrying state. -/
theorem fetcher_retry_unbounded_witness :
    (failStreak retryDemoState 5).retry_token = true ∧
    (failStreak retryDemoState 5).next_token = retryDemoState.next_token :=
  fetcher_retry_unbounded retryDemoState rfl 5

/-- Which of the two `room_walk_command` phases a worker task belongs to. -/
inductive WalkPhase where
  | discovery
  | backfill
deriving DecidableEq, Repr

/-- Observable control-flow events of `room_walk_command`: spawning a
phase's `_inner_walking_fetcher` task, cancelling it and awaiting its
cancellation (`task.cancel()` followed by `asyncio.gather`), and reaching
the final "Done" response. -/
inductive WalkEvent where
  | spawnWorker (phase : WalkPhase)
  | cancelAndAwaitWorker (phase : WalkPhase)
  | walkDone
deriving DecidableEq, Repr

/-- The `while True` loop each phase of `room_walk_command` runs, driven by
the batches of timed responses the worker delivered between polls: for each
response of a batch, `finish` is recomputed as "this response has no truthy
`end` token" (an empty batch leaves `finish` as it was); after processing a
batch the loop breaks if `finish` holds, else it sleeps and polls again.
With no batches left and `finish` still false the loop never exits
(`none`); on exit the unconsumed batches are returned. -/
def phase_loop (finish : Bool) :
    List (List PaginatedResponse) → Option (List (List PaginatedResponse))
  | [] => none
  | batch :: rest =>
      let finish' := batch.foldl (fun _ r => !truthyEnd r.endToken) finish
      if finish' then some rest else phase_loop finish' rest

set_option linter.unusedVariables false in
/-- Control-flow skeleton of `room_walk_command`
(`src/federationbot/__init__.py:417`): spawn the discovery worker, run the
discovery loop to completion, cancel and await that worker, then do the same
for the backfill phase, and finish.  `task_control_signal` models the value
of the bot's `task_control` entry as it would be observed at each
loop-iteration boundary; the source never reads `task_control` inside
`room_walk_command`, and correspondingly the model never consults it. -/
def room_walk_run (task_control_signal : Nat → ReactionCommandStatus)
    (discovery_batches backfill_batches : List (List PaginatedResponse)) :
    List WalkEvent :=
  match phase_loop false discovery_batches with
  | none => [.spawnWorker .discovery]
  | some _ =>
      match phase_loop false backfill_batches with
      | none => [.spawnWorker .discovery, .cancelAndAwaitWorker .discovery,
                 .spawnWorker .backfill]
      | some _ => [.spawnWorker .discovery, .cancelAndAwaitWorker .discovery,
                   .spawnWorker .backfill, .cancelAndAwaitWorker .backfill,
                   .walkDone]

/-- A single-batch schedule whose one page has no continuation token, so
the phase loop finishes after one iteration. -/
def onePageNoToken : List (List PaginatedResponse) := [[⟨[], none⟩]]

/-- C2 counterexample: a backwalk whose control signal reads `STOP` at every
loop-iteration boundary still starts the backfill phase after discovery —
the stop signal is never consulted by `room_walk_command`, so signalling
stop mid-discovery does not terminate the session before backfill. -/
theorem walk_stop_still_backfills :
    WalkEvent.spawnWorker WalkPhase.backfill ∈
      room_walk_run (fun _ => ReactionCommandStatus.STOP) onePageNoToken
        onePageNoToken := by decide

/-- C2 amended: `room_walk_command` never reads the control signal: the run
is identical under any two signal histories (so `stop` mid-discovery does
not prevent backfill), each phase's loop exits only when a page has no
continuation token, and a walk that reaches `walkDone` has cancelled and
awaited each phase's single worker task, leaving no outstanding worker. -/
theorem walk_ignores_control_signal (sig sig' : Nat → ReactionCommandStatus)
    (disc backf : List (List PaginatedResponse)) :
    room_walk_run sig disc backf = room_walk_run sig' disc backf ∧
    (WalkEvent.walkDone ∈ room_walk_run sig disc backf →
      room_walk_run sig disc backf =
        [.spawnWorker .discovery, .cancelAndAwaitWorker .discovery,
         .spawnWorker .backfill, .cancelAndAwaitWorker .backfill,
         .walkDone]) := by
  refine ⟨rfl, ?_⟩
  intro hdone
  rw [room_walk_run] at hdone ⊢
  cases h1 : phase_loop false disc with
  | none =>
      rw [h1] at hdone
      simp at hdone
  | some rest₁ =>
      cases h2 : phase_loop false backf with
      | none =>
          rw [h2] at hdone
          rw [h1] at hdone
          simp at hdone
      | some rest₂ => rfl

/-- Witness for `walk_ignores_control_signal`: concrete one-page schedules
under a constant-STOP and a constant-START signal history give the same run,
and that run, having reached `walkDone`, pairs both workers with their
cancellation. -/
theorem walk_ignores_control_signal_witness :
    room_walk_run (fun _ => ReactionCommandStatus.STOP) onePageNoToken
        onePageNoToken =
      room_walk_run (fun _ => ReactionCommandStatus.START) onePageNoToken
        onePageNoToken ∧
    room_walk_run (fun _ => ReactionCommandStatus.STOP) onePageNoToken
        onePageNoToken =
      [.spawnWorker .discovery, .cancelAndAwaitWorker .discovery,
       .spawnWorker .backfill, .cancelAndAwaitWorker .backfill,
       .walkDone] :=
  ⟨(walk_ignores_control_signal (fun _ => ReactionCommandStatus.STOP)
      (fun _ => ReactionCommandStatus.START) onePageNoToken onePageNoToken).1,
   (walk_ignores_control_signal (fun _ => ReactionCommandStatus.STOP)
      (fun _ => ReactionCommandStatus.START) onePageNoToken onePageNoToken).2
     (by decide)⟩

/-! ## Concurrent dispatch (`_delegations`, `_versions`,
`find_event_command`) -/

/-- `MAX_NUMBER_OF_SERVERS_TO_ATTEMPT` (`src/federationbot/__init__.py:68`). -/
def MAX_NUMBER_OF_SERVERS_TO_ATTEMPT : Nat := 400

/-- `MAX_NUMBER_OF_SERVERS_FOR_CONCURRENT_REQUEST`
(`src/federationbot/__init__.py:73`). -/
def MAX_NUMBER_OF_SERVERS_FOR_CONCURRENT_REQUEST : Nat := 100

/-- Outcome of one `get_server_version` probe as awaited under
`asyncio.wait_for(..., timeout=10.0)` inside `_delegation_worker` and
`_version_worker`: a version response, an `asyncio.TimeoutError`, or any
other unexpected exception with its message. -/
inductive ProbeOutcome where
  | ok (server_software server_version : String)
  | timeout
  | raise (msg : String)
deriving DecidableEq, Repr

/-- Model of the `FederationBaseResponse` values the result maps hold:
either a `FederationVersionResponse`, or a `FederationErrorResponse` with
its `status_code`, `status_reason` and the `error_reason` of its
`ServerResultError`. -/
inductive FederationResponseModel where
  | version (server_software server_version : String)
  | error (status_code : Nat) (status_reason : String) (error_reason : String)
deriving DecidableEq, Repr

/-- The entry `_delegation_worker` (`src/federationbot/__init__.py:989`)
stores for one server name: the probe's response on success, and a
`FederationErrorResponse` built in the `except` clauses on timeout
("Request timed out" / "Timeout err") or on any other exception
("Plugin Error" / "Plugin err: ..."); `queue.task_done()` runs in a
`finally`, so every dequeued target is accounted for. -/
def delegation_worker_result (probe : String → ProbeOutcome)
    (server_name : String) : FederationResponseModel :=
  match probe server_name with
  | .ok sw v => .version sw v
  | .timeout => .error 0 "Request timed out" "Timeout err"
  | .raise msg => .error 0 "Plugin Error" ("Plugin err: " ++ msg)

/-- The entry `_version_worker` (`src/federationbot/__init__.py:1557`)
stores for one server name; identical to `_delegation_worker` except for
the timeout `status_reason`. -/
def version_worker_result (probe : String → ProbeOutcome)
    (server_name : String) : FederationResponseModel :=
  match probe server_name with
  | .ok sw v => .version sw v
  | .timeout => .error 0 "Timed out waiting for response" "Timeout err"
  | .raise msg => .error 0 "Plugin Error" ("Plugin err: " ++ msg)

/-- The contents of `server_to_server_data` after the `_delegations` worker
pool drains its queue: each of the (distinct) targets was claimed by exactly
one worker, which always writes exactly one entry for it. -/
def delegation_dispatch (probe : String → ProbeOutcome)
    (targets : List String) : List (String × FederationResponseModel) :=
  targets.map (fun t => (t, delegation_worker_result probe t))

/-- The contents of `server_to_version_data` after the `_versions` worker
pool drains its queue. -/
def version_dispatch (probe : String → ProbeOutcome)
    (targets : List String) : List (String × FederationResponseModel) :=
  targets.map (fun t => (t, version_worker_result probe t))

/-- What a caller-side dispatch in `_delegations`/`_versions` produced:
either the early error response rejecting the batch (sent before any queue,
worker task or probe exists), or the completed result map. -/
inductive DispatchRun where
  | rejected (message : String)
  | completed (results : List (String × FederationResponseModel))
deriving DecidableEq, Repr

/-- The size gate plus dispatch of `_delegations`
(`src/federationbot/__init__.py:969`): when the assembled target set is
larger than `MAX_NUMBER_OF_SERVERS_TO_ATTEMPT` the command responds with an
error and returns before the queue is filled or any worker task is
created. -/
def delegations_run (probe : String → ProbeOutcome)
    (list_of_servers_to_check : List String) : DispatchRun :=
  if list_of_servers_to_check.length > MAX_NUMBER_OF_SERVERS_TO_ATTEMPT then
    .rejected ("To many servers in this room: " ++
      toString list_of_servers_to_check.length)
  else .completed (delegation_dispatch probe list_of_servers_to_check)

/-- The size gate plus dispatch of `_versions`
(`src/federationbot/__init__.py:1539`), same shape as `delegations_run`. -/
def versions_run (probe : String → ProbeOutcome)
    (list_of_servers_to_check : List String) : DispatchRun :=
  if list_of_servers_to_check.length > MAX_NUMBER_OF_SERVERS_TO_ATTEMPT then
    .rejected ("To many servers in this room: " ++
      toString list_of_servers_to_check.length)
  else .completed (version_dispatch probe list_of_servers_to_check)

/-- C8: a target set larger than the hard ceiling of 400 is rejected by
both `_delegations` and `_versions` before dispatch: the run is the error
response, and it does not depend on the probe function at all — no probe is
consulted and no worker dispatch happens. -/
theorem oversize_batch_rejected (probe probe' : String → ProbeOutcome)
    (targets : List String)
    (h : targets.length > MAX_NUMBER_OF_SERVERS_TO_ATTEMPT) :
    delegations_run probe targets =
      .rejected ("To many servers in this room: " ++ toString targets.length) ∧
    delegations_run probe targets = delegations_run probe' targets ∧
    versions_run probe targets =
      .rejected ("To many servers in this room: " ++ toString targets.length) ∧
    versions_run probe targets = versions_run probe' targets := by
  refine ⟨?_, ?_, ?_, ?_⟩ <;> simp [delegations_run, versions_run, if_pos h]

/-- Witness for `oversize_batch_rejected`: 401 targets are rejected. -/
theorem oversize_batch_rejected_witness :
    delegations_run (fun _ => ProbeOutcome.timeout)
        (List.replicate 401 "big.example") =
      .rejected ("To many servers in this room: " ++
        toString (List.replicate 401 "big.example").length) :=
  (oversize_batch_rejected (fun _ => ProbeOutcome.timeout)
    (fun _ => ProbeOutcome.raise "boom") (List.replicate 401 "big.example")
    (by rw [List.length_replicate]; decide)).1

/-- What `returned_events.get(event_id)` yields inside
`_event_finding_worker`: an `EventError` (with its error text), a proper
event, or nothing (`None`) when the event id is absent from the returned
dictionary. -/
inductive EventStatusModel where
  | eventError (error : String)
  | okEvent
deriving DecidableEq, Repr

/-- Outcome of one `get_event_from_server` call inside
`_event_finding_worker`: the call returns (and `.get(event_id)` produces
the optional status), or it raises an unexpected exception.  Unlike
`_delegation_worker`, `_event_finding_worker` wraps the call in no
`try`/`except` and no `asyncio.wait_for`. -/
inductive EventProbeOutcome where
  | returns (result : Option EventStatusModel)
  | raise (msg : String)
deriving DecidableEq, Repr

/-- Whether the probe call returns rather than raising. -/
def event_probe_returns : EventProbeOutcome → Bool
  | .returns _ => true
  | .raise _ => false

/-- The `host_to_event_status_map` produced by the `_event_finding_worker`
pool of `find_event_command` (`src/federationbot/__init__.py:755`): the
worker body has no exception handler, so if the probe raises for any host,
that worker task dies without calling `queue.task_done()`, `host_queue.join()`
never completes, and the dispatch never returns a mapping — modelled as
`none`.  When every probe returns, each host gets exactly one entry (whose
value may itself be `None`). -/
def event_finding_dispatch (probe : String → EventProbeOutcome)
    (host_list : List String) :
    Option (List (String × Option EventStatusModel)) :=
  if host_list.all (fun h => event_probe_returns (probe h)) then
    some (host_list.map (fun h =>
      (h, match probe h with
          | .returns r => r
          | .raise _ => none)))
  else none

/-- A probe that raises an unexpected exception for every host. -/
def raisingEventProbe : String → EventProbeOutcome :=
  fun _ => .raise "unexpected"

/-- C1 counterexample: the event-finding dispatch does NOT return one entry
per target when the probe function raises an unexpected exception: with a
single target whose probe raises, no result mapping is produced at all
(the worker dies without `task_done`, so the batch never completes),
instead of a mapping with one `failure(internal-error)` entry. -/
theorem event_dispatch_raise_loses_target :
    event_finding_dispatch raisingEventProbe ["matrix.example"] = none := by
  decide

/-- C1 amended: the delegation and version dispatchers return exactly one
entry per submitted target, for any number of targets including zero, with
timeouts and unexpected exceptions converted to error entries; the
event-finding dispatcher guarantees one entry per target only when its
probe raises no exception. -/
theorem dispatch_one_result_per_target (probe_v : String → ProbeOutcome)
    (probe_e : String → EventProbeOutcome) (targets hosts : List String)
    (hok : ∀ h ∈ hosts, event_probe_returns (probe_e h) = true) :
    (delegation_dispatch probe_v targets).map Prod.fst = targets ∧
    (version_dispatch probe_v targets).map Prod.fst = targets ∧
    (∀ t ∈ targets,
      (t, delegation_worker_result probe_v t) ∈ delegation_dispatch probe_v targets) ∧
    ∃ m, event_finding_dispatch probe_e hosts = some m ∧
      m.map Prod.fst = hosts := by
  refine ⟨?_, ?_, ?_, ?_⟩
  · have hcomp : (Prod.fst ∘ fun t => (t, delegation_worker_result probe_v t)) =
        (id : String → String) := rfl
    rw [delegation_dispatch, List.map_map, hcomp, List.map_id]
  · have hcomp : (Prod.fst ∘ fun t => (t, version_worker_result probe_v t)) =
        (id : String → String) := rfl
    rw [version_dispatch, List.map_map, hcomp, List.map_id]
  · intro t ht
    exact List.mem_map.mpr ⟨t, ht, rfl⟩
  · refine ⟨hosts.map (fun h =>
        (h, match probe_e h with
            | .returns r => r
            | .raise _ => none)), ?_, ?_⟩
    · rw [event_finding_dispatch, if_pos (List.all_eq_true.mpr hok)]
    · have hcomp : (Prod.fst ∘ fun h =>
          ((h : String), match probe_e h with
                         | .returns r => r
                         | .raise _ => none)) = (id : String → String) := rfl
      rw [List.map_map, hcomp, List.map_id]

/-- Demonstration version probe: one target times out, every other raises. -/
def demoVersionProbe : String → ProbeOutcome :=
  fun server_name =>
    if server_name = "t.example" then .timeout else .raise "boom"

/-- Demonstration event probe that always returns an event. -/
def demoEventProbe : String → EventProbeOutcome :=
  fun _ => .returns (some .okEvent)

/-- Witness for `dispatch_one_result_per_target`: two targets, one timing
out and one raising, still give two keyed entries. -/
theorem dispatch_one_result_per_target_witness :
    (delegation_dispatch demoVersionProbe ["t.example", "r.example"]).map
      Prod.fst = ["t.example", "r.example"] :=
  (dispatch_one_result_per_target demoVersionProbe demoEventProbe
    ["t.example", "r.example"] ["h.example"] (by decide)).1

/-! ## Result rendering (`find_event_command`, `_delegations`, `_versions`) -/

/-- The row `find_event_command` (`src/federationbot/__init__.py:796`)
renders for one host, reduced to its content cells (host column, result
column, detail column; the fixed-width padding comes from
`federationbot/utils.py`, outside `src/`, and carries no information):
a present `EventError` renders "Fail" plus the error, a present event
renders "OK", and a missing or `None` result (both falsy in
`if result:`) renders the explicit
"Plugin error(Host not contacted)" row. -/
def find_event_row (host_to_event_status_map : String → Option (Option EventStatusModel))
    (host : String) : String × String × String :=
  match host_to_event_status_map host with
  | some (some (.eventError err)) => (host, "Fail", err)
  | some (some .okEvent) => (host, "OK", "")
  | some none => (host, "Fail", "Plugin error(Host not contacted)")
  | none => (host, "Fail", "Plugin error(Host not contacted)")

/-- The render loop of `find_event_command`: one row appended per host of
`host_list`, in order. -/
def find_event_render_rows (host_list : List String)
    (host_to_event_status_map : String → Option (Option EventStatusModel)) :
    List (String × String × String) :=
  match host_list with
  | [] => []
  | host :: rest =>
      find_event_row host_to_event_status_map host ::
        find_event_render_rows rest host_to_event_status_map

/-- The render loop of `_delegations` (`src/federationbot/__init__.py:1104`):
for each sorted server name it looks the name up in `server_to_server_data`
and appends a row only under `if server_response:` — a name with no entry
is silently skipped. -/
def delegations_render_rows (server_results_sorted : List String)
    (server_to_server_data : String → Option FederationResponseModel) :
    List (String × FederationResponseModel) :=
  match server_results_sorted with
  | [] => []
  | n :: ns =>
      match server_to_server_data n with
      | some r => (n, r) :: delegations_render_rows ns server_to_server_data
      | none => delegations_render_rows ns server_to_server_data

/-- The render loop of `_versions` (`src/federationbot/__init__.py:1662`):
for each sorted server name, an error response renders its code and reason,
a version response renders software and version, but a missing entry falls
into the `else` branch whose
`assert isinstance(server_data, FederationVersionResponse)` fails on
`None`, raising `AssertionError` and aborting the render. -/
def versions_render_rows (sorted_list_of_servers : List String)
    (server_to_version_data : String → Option FederationResponseModel) :
    Except String (List (String × String)) :=
  match sorted_list_of_servers with
  | [] => .ok []
  | n :: ns =>
      match server_to_version_data n with
      | some (.error code reason _) =>
          (versions_render_rows ns server_to_version_data).map
            (fun rows =>
              (n, (if code > 0 then toString code ++ ":" else "") ++ reason)
                :: rows)
      | some (.version sw v) =>
          (versions_render_rows ns server_to_version_data).map
            (fun rows => (n, sw ++ " | " ++ v) :: rows)
      | none => .error "AssertionError"

/-- C9 counterexample: a submitted target with no entry in the result map is
NOT rendered as an explicit internal-error row by every render stage: the
delegation render silently omits it (no row at all for one target), and the
versions render fails with an assertion error instead of rendering. -/
theorem render_missing_target_not_error_row :
    delegations_render_rows ["missing.example"] (fun _ => none) = [] ∧
    versions_render_rows ["missing.example"] (fun _ => none) =
      .error "AssertionError" :=
  ⟨rfl, rfl⟩

/-- C9 amended: the find-event render emits exactly one row per submitted
target, in order, and renders a target that is missing from the result map
(or mapped to `None`) as the explicit "Plugin error(Host not contacted)"
row; the delegation render instead silently omits such a target and the
versions render fails an assertion on it. -/
theorem find_event_render_one_row_per_target (host_list : List String)
    (m : String → Option (Option EventStatusModel)) :
    (find_event_render_rows host_list m).map Prod.fst = host_list ∧
    ∀ host ∈ host_list, (m host = none ∨ m host = some none) →
      (host, "Fail", "Plugin error(Host not contacted)") ∈
        find_event_render_rows host_list m := by
  induction host_list with
  | nil => exact ⟨rfl, by simp⟩
  | cons h hs ih =>
      constructor
      · rw [find_event_render_rows, List.map_cons, ih.1]
        have hfst : (find_event_row m h).1 = h := by
          rw [find_event_row]
          cases hm : m h with
          | none => rfl
          | some ov =>
              cases ov with
              | none => rfl
              | some st => cases st <;> rfl
        rw [hfst]
      · intro host hmem hcase
        rw [find_event_render_rows]
        rcases List.mem_cons.mp hmem with rfl | hmem'
        · have hrow : find_event_row m host =
              (host, "Fail", "Plugin error(Host not contacted)") := by
            rcases hcase with hnone | hsome
            · rw [find_event_row, hnone]
            · rw [find_event_row, hsome]
          exact hrow ▸ List.mem_cons_self _ _
        · exact List.mem_cons_of_mem _ (ih.2 host hmem' hcase)

/-- Witness for `find_event_render_one_row_per_target`: two hosts, one with
no entry, still yield two rows with the missing one rendered explicitly. -/
theorem find_event_render_one_row_per_target_witness :
    (find_event_render_rows ["a.example", "b.example"]
        (fun h => if h = "a.example" then some (some .okEvent) else none)).map
      Prod.fst = ["a.example", "b.example"] ∧
    ("b.example", "Fail", "Plugin error(Host not contacted)") ∈
      find_event_render_rows ["a.example", "b.example"]
        (fun h => if h = "a.example" then some (some .okEvent) else none) :=
  ⟨(find_event_render_one_row_per_target ["a.example", "b.example"]
      (fun h => if h = "a.example" then some (some .okEvent) else none)).1,
   (find_event_render_one_row_per_target ["a.example", "b.example"]
      (fun h => if h = "a.example" then some (some .okEvent) else none)).2
     "b.example" (by decide) (Or.inl (by decide))⟩
